import Mathlib

/-!
Verification of the four CSV field codecs of `serde-csv-extra`
(`src/lib.rs`): `vec_num`, `vec_vec_num`, `maybe_image_size`,
`maybe_lat_lon`.

Strings are modelled as `List Char`.  Rust's `str::split(sep)` is
`splitOnChar`, `slice::join(sep)` on the rendered pieces is `joinSep`,
`str::split_once(sep)` is `splitOnceChar`, and `collect::<Result<Vec, E>>()`
over an iterator of parse results is `collectResults`.  A numeric element
type with its `ToString`/`Display` rendering and `FromStr` parsing (whose
error is rendered through `Display` by `serde::de::Error::custom`) is a
`NumCodec`; errors are modelled by their displayed message, a `List Char`.
`intCodec` instantiates it with the Rust integer grammar (optional sign,
decimal digits) and the standard decimal rendering.
-/

instance [DecidableEq ε] [DecidableEq α] : DecidableEq (Except ε α) := fun a b =>
  match a, b with
  | .error x, .error y =>
    if h : x = y then isTrue (by rw [h])
    else isFalse (fun hh => h (Except.error.inj hh))
  | .error _, .ok _ => isFalse (fun hh => Except.noConfusion hh)
  | .ok _, .error _ => isFalse (fun hh => Except.noConfusion hh)
  | .ok x, .ok y =>
    if h : x = y then isTrue (by rw [h])
    else isFalse (fun hh => h (Except.ok.inj hh))

/-- Rust `str::split (sep : char)` on a string viewed as a character list:
`n` separators yield `n + 1` (possibly empty) pieces; the empty string
yields one empty piece. -/
def splitOnChar (sep : Char) : List Char → List (List Char)
  | [] => [[]]
  | c :: rest =>
    if c = sep then [] :: splitOnChar sep rest
    else
      match splitOnChar sep rest with
      | [] => [[c]]
      | p :: ps => (c :: p) :: ps

/-- Rust `[String]::join (sep)`: interleave the separator between the
pieces. -/
def joinSep (sep : Char) : List (List Char) → List Char
  | [] => []
  | [p] => p
  | p :: q :: ps => p ++ sep :: joinSep sep (q :: ps)

/-- Rust `str::split_once (sep)`: split at the first occurrence of `sep`,
`none` when `sep` does not occur. -/
def splitOnceChar (sep : Char) : List Char → Option (List Char × List Char)
  | [] => none
  | c :: rest =>
    if c = sep then some ([], rest)
    else (splitOnceChar sep rest).map (fun p => (c :: p.1, p.2))

/-- Rust `iter.map(parse).collect::<Result<Vec<_>, _>>()`: parse the items
in order, abort with the first error. -/
def collectResults (f : List Char → Except (List Char) α) :
    List (List Char) → Except (List Char) (List α)
  | [] => .ok []
  | t :: rest =>
    match f t with
    | .error e => .error e
    | .ok v =>
      match collectResults f rest with
      | .error e => .error e
      | .ok vs => .ok (v :: vs)

/-- A numeric element type as the codecs use it: a `ToString`/`Display`
rendering `ts` and a `FromStr` parse `fs` whose error carries only its
displayed message (this is what `serde::de::Error::custom` receives). -/
structure NumCodec (α : Type) where
  ts : α → List Char
  fs : List Char → Except (List Char) α

/-- Decimal digits of `n`, most significant first; fuel-based division
loop mirroring the standard rendering. -/
def natToCharsAux : Nat → Nat → List Char → List Char
  | 0, _, acc => acc
  | fuel + 1, n, acc =>
    if n < 10 then Char.ofNat (48 + n) :: acc
    else natToCharsAux fuel (n / 10) (Char.ofNat (48 + n % 10) :: acc)

/-- Standard decimal rendering of a natural number. -/
def natToChars (n : Nat) : List Char := natToCharsAux (n + 1) n []

/-- Rust integer `Display`: minus sign for negatives, then decimal
digits. -/
def intToChars (n : Int) : List Char :=
  if n < 0 then '-' :: natToChars n.natAbs else natToChars n.natAbs

/-- Value of a digit character. -/
def charToDigit (c : Char) : Nat := c.toNat - 48

/-- Value of a string of decimal digits. -/
def digitsVal (ds : List Char) : Nat :=
  ds.foldl (fun acc c => acc * 10 + charToDigit c) 0

/-- Rust integer `FromStr` (width checks aside): optional `+`/`-` sign
followed by at least one decimal digit; the empty string and any
non-digit character are errors, with the messages `ParseIntError`
displays. -/
def parseIntRust (s : List Char) : Except (List Char) Int :=
  match s with
  | [] => .error ("cannot parse integer from empty string".data)
  | c :: rest =>
    let (neg, digits) :=
      if c = '-' then (true, rest)
      else if c = '+' then (false, rest)
      else (false, c :: rest)
    if digits = [] then .error ("invalid digit found in string".data)
    else if digits.all Char.isDigit then
      if neg then .ok (-(digitsVal digits : Int)) else .ok ((digitsVal digits : Int))
    else .error ("invalid digit found in string".data)

/-- The codecs instantiated at a Rust integer type (e.g. `i64`). -/
def intCodec : NumCodec Int := ⟨intToChars, parseIntRust⟩

namespace vec_num

/-- The string `vec_num::serialize` writes: render each element with
`ToString`, join with `_`. -/
def encode (c : NumCodec α) (list : List α) : List Char :=
  joinSep '_' (list.map c.ts)

/-- `vec_num::serialize`: build the joined string, then hand it to the
caller-supplied serializer (`serializer.serialize_str`). -/
def serialize (c : NumCodec α) (list : List α)
    (serializer : List Char → Except ε β) : Except ε β :=
  serializer (joinSep '_' (list.map c.ts))

/-- `vec_num::deserialize`, after the framework has produced the field
string: empty string short-circuits to the empty vector, otherwise split
on `_` and parse every token, aborting at the first failure. -/
def deserialize (c : NumCodec α) (s : List Char) :
    Except (List Char) (List α) :=
  if s = [] then .ok []
  else collectResults c.fs (splitOnChar '_' s)

end vec_num

namespace vec_vec_num

/-- The string `vec_vec_num::serialize` writes: join each row with `_`,
join the rows with `|`. -/
def encode (c : NumCodec α) (rows : List (List α)) : List Char :=
  joinSep '|' (rows.map (fun r => joinSep '_' (r.map c.ts)))

/-- `vec_vec_num::serialize`. -/
def serialize (c : NumCodec α) (rows : List (List α))
    (serializer : List Char → Except ε β) : Except ε β :=
  serializer (joinSep '|' (rows.map (fun r => joinSep '_' (r.map c.ts))))

/-- `vec_vec_num::deserialize`: empty string short-circuits to the empty
matrix, otherwise split on `|` into row substrings and each row substring
on `_` into tokens; the source's nested loop with `?` early return is the
nested short-circuiting collect. -/
def deserialize (c : NumCodec α) (s : List Char) :
    Except (List Char) (List (List α)) :=
  if s = [] then .ok []
  else
    collectResults (fun line => collectResults c.fs (splitOnChar '_' line))
      (splitOnChar '|' s)

end vec_vec_num

namespace maybe_image_size

/-- The string `maybe_image_size::serialize` writes: width, literal `x`,
height; `None` writes the empty string. -/
def encode (cw : NumCodec W) (ch : NumCodec H) (size : Option (W × H)) :
    List Char :=
  match size with
  | some p => cw.ts p.1 ++ 'x' :: ch.ts p.2
  | none => []

/-- `maybe_image_size::serialize`. -/
def serialize (cw : NumCodec W) (ch : NumCodec H) (size : Option (W × H))
    (serializer : List Char → Except ε β) : Except ε β :=
  match size with
  | some p => serializer (cw.ts p.1 ++ 'x' :: ch.ts p.2)
  | none => serializer []

/-- `maybe_image_size::deserialize`: empty string short-circuits to
`None`; otherwise `split_once('x')`, failing with the fixed message when
`x` is absent, then parse the two parts. -/
def deserialize (cw : NumCodec W) (ch : NumCodec H) (s : List Char) :
    Except (List Char) (Option (W × H)) :=
  if s = [] then .ok none
  else
    match splitOnceChar 'x' s with
    | none => .error ("bad image size format".data)
    | some (width, height) =>
      match cw.fs width with
      | .error e => .error e
      | .ok w =>
        match ch.fs height with
        | .error e => .error e
        | .ok h => .ok (some (w, h))

end maybe_image_size

namespace maybe_lat_lon

/-- The string `maybe_lat_lon::serialize` writes: first coordinate,
literal `;`, second coordinate; `None` writes the empty string. -/
def encode (c : NumCodec T) (size : Option (T × T)) : List Char :=
  match size with
  | some p => c.ts p.1 ++ ';' :: c.ts p.2
  | none => []

/-- `maybe_lat_lon::serialize`. -/
def serialize (c : NumCodec T) (size : Option (T × T))
    (serializer : List Char → Except ε β) : Except ε β :=
  match size with
  | some p => serializer (c.ts p.1 ++ ';' :: c.ts p.2)
  | none => serializer []

/-- `maybe_lat_lon::deserialize`: empty string short-circuits to `None`;
otherwise `split_once(';')`, failing with the (reused) message when `;`
is absent, then parse the two parts. -/
def deserialize (c : NumCodec T) (s : List Char) :
    Except (List Char) (Option (T × T)) :=
  if s = [] then .ok none
  else
    match splitOnceChar ';' s with
    | none => .error ("bad image size format".data)
    | some (lat, lon) =>
      match c.fs lat with
      | .error e => .error e
      | .ok a =>
        match c.fs lon with
        | .error e => .error e
        | .ok b => .ok (some (a, b))

end maybe_lat_lon

theorem splitOnChar_ne_nil (sep : Char) (s : List Char) : splitOnChar sep s ≠ [] := by
  cases s with
  | nil => simp [splitOnChar]
  | cons c rest =>
    simp only [splitOnChar]
    split
    · simp
    · split <;> simp

theorem splitOnChar_cons_head (sep : Char) (s : List Char) :
    ∃ p ps, splitOnChar sep s = p :: ps := by
  cases h : splitOnChar sep s with
  | nil => exact absurd h (splitOnChar_ne_nil sep s)
  | cons p ps => exact ⟨p, ps, rfl⟩

theorem joinSep_splitOnChar (sep : Char) (s : List Char) :
    joinSep sep (splitOnChar sep s) = s := by
  induction s with
  | nil => rfl
  | cons c rest ih =>
    simp only [splitOnChar]
    split
    · rename_i hc
      obtain ⟨p, ps, hps⟩ := splitOnChar_cons_head sep rest
      rw [hps] at ih ⊢
      simp [joinSep, ih, hc]
    · obtain ⟨p, ps, hps⟩ := splitOnChar_cons_head sep rest
      rw [hps] at ih ⊢
      cases ps with
      | nil => simpa [joinSep] using ih
      | cons q qs =>
        simp only [joinSep] at ih ⊢
        simp [ih]

theorem splitOnChar_not_mem (sep : Char) (p : List Char) (h : sep ∉ p) :
    splitOnChar sep p = [p] := by
  induction p with
  | nil => rfl
  | cons c rest ih =>
    rw [List.mem_cons, not_or] at h
    have hc : ¬(c = sep) := fun hh => h.1 hh.symm
    simp [splitOnChar, hc, ih h.2]

theorem splitOnChar_append (sep : Char) (a t : List Char) (ha : sep ∉ a) :
    splitOnChar sep (a ++ sep :: t) = a :: splitOnChar sep t := by
  induction a with
  | nil => simp [splitOnChar]
  | cons c p ih =>
    rw [List.mem_cons, not_or] at ha
    have hc : ¬(c = sep) := fun hh => ha.1 hh.symm
    have hih := ih ha.2
    simp [splitOnChar, if_neg hc, hih]

theorem splitOnChar_joinSep (sep : Char) (ps : List (List Char))
    (hne : ps ≠ []) (hfree : ∀ p ∈ ps, sep ∉ p) :
    splitOnChar sep (joinSep sep ps) = ps := by
  induction ps with
  | nil => exact absurd rfl hne
  | cons p qs ih =>
    cases qs with
    | nil => simpa [joinSep] using splitOnChar_not_mem sep p (hfree p (by simp))
    | cons q rs =>
      have hj : joinSep sep (p :: q :: rs) = p ++ sep :: joinSep sep (q :: rs) := rfl
      rw [hj, splitOnChar_append sep p _ (hfree p (by simp)),
        ih (by simp) (fun x hx => hfree x (List.mem_cons_of_mem _ hx))]

theorem joinSep_eq_nil_iff (sep : Char) (ps : List (List Char)) :
    joinSep sep ps = [] ↔ ps = [] ∨ ps = [[]] := by
  rcases ps with _ | ⟨p, _ | ⟨q, rs⟩⟩
  · simp [joinSep]
  · simp [joinSep]
  · simp [joinSep]

theorem not_mem_joinSep (sep sep2 : Char) (ps : List (List Char))
    (hns : sep2 ≠ sep) (h : ∀ p ∈ ps, sep2 ∉ p) : sep2 ∉ joinSep sep ps := by
  induction ps with
  | nil => simp [joinSep]
  | cons p qs ih =>
    cases qs with
    | nil => simpa [joinSep] using h p (by simp)
    | cons q rs =>
      have hj : joinSep sep (p :: q :: rs) = p ++ sep :: joinSep sep (q :: rs) := rfl
      rw [hj]
      intro hm
      rcases List.mem_append.mp hm with hp | hrest
      · exact h p (by simp) hp
      · rcases List.mem_cons.mp hrest with hs | hj2
        · exact hns hs
        · exact ih (fun x hx => h x (List.mem_cons_of_mem _ hx)) hj2

theorem splitOnceChar_eq_none (sep : Char) (s : List Char) :
    splitOnceChar sep s = none ↔ sep ∉ s := by
  induction s with
  | nil => simp [splitOnceChar]
  | cons c rest ih =>
    simp only [splitOnceChar]
    by_cases hc : c = sep
    · subst hc; simp
    · rw [if_neg hc]
      constructor
      · intro h
        have hrest : sep ∉ rest := ih.mp (Option.map_eq_none'.mp h)
        rw [List.mem_cons, not_or]
        exact ⟨fun hh => hc hh.symm, hrest⟩
      · intro h
        rw [List.mem_cons, not_or] at h
        exact Option.map_eq_none'.mpr (ih.mpr h.2)

theorem splitOnceChar_append (sep : Char) (a b : List Char) (ha : sep ∉ a) :
    splitOnceChar sep (a ++ sep :: b) = some (a, b) := by
  induction a with
  | nil => simp [splitOnceChar]
  | cons c p ih =>
    rw [List.mem_cons, not_or] at ha
    have hc : ¬(c = sep) := fun hh => ha.1 hh.symm
    simp [splitOnceChar, hc, ih ha.2]

theorem splitOnceChar_some (sep : Char) (s a b : List Char)
    (h : splitOnceChar sep s = some (a, b)) : s = a ++ sep :: b ∧ sep ∉ a := by
  induction s generalizing a b with
  | nil => simp [splitOnceChar] at h
  | cons c rest ih =>
    simp only [splitOnceChar] at h
    by_cases hc : c = sep
    · subst hc
      rw [if_pos rfl] at h
      obtain ⟨rfl, rfl⟩ : [] = a ∧ rest = b := by
        cases h; exact ⟨rfl, rfl⟩
      simp
    · rw [if_neg hc] at h
      cases hsp : splitOnceChar sep rest with
      | none => rw [hsp] at h; simp at h
      | some pr =>
        rw [hsp] at h
        obtain ⟨p1, p2⟩ := pr
        simp only [Option.map_some', Option.some.injEq, Prod.mk.injEq] at h
        obtain ⟨rfl, rfl⟩ := h
        obtain ⟨hs, hm⟩ := ih p1 p2 hsp
        subst hs
        refine ⟨rfl, ?_⟩
        rw [List.mem_cons, not_or]
        exact ⟨fun hh => hc hh.symm, hm⟩

theorem collectResults_of_ok (f : List Char → Except (List Char) α)
    (g : α → List Char) (l : List α) (h : ∀ x ∈ l, f (g x) = .ok x) :
    collectResults f (l.map g) = .ok l := by
  induction l with
  | nil => rfl
  | cons x xs ih =>
    have hx := h x (List.mem_cons_self x xs)
    have hxs := ih (fun y hy => h y (List.mem_cons_of_mem x hy))
    simp [collectResults, hx, hxs]

theorem collectResults_ok_length (f : List Char → Except (List Char) α)
    (l : List (List Char)) (v : List α) (h : collectResults f l = .ok v) :
    v.length = l.length := by
  induction l generalizing v with
  | nil =>
    simp only [collectResults, Except.ok.injEq] at h
    simp [← h]
  | cons t rest ih =>
    simp only [collectResults] at h
    cases hf : f t with
    | error e => rw [hf] at h; simp at h
    | ok x =>
      rw [hf] at h
      cases hc : collectResults f rest with
      | error e => rw [hc] at h; simp at h
      | ok vs =>
        rw [hc] at h
        simp only [Except.ok.injEq] at h
        simp [← h, ih vs hc]

theorem collectResults_map (f : List Char → Except (List Char) α)
    (g : α → List Char) (l : List (List Char)) (v : List α)
    (h : collectResults f l = .ok v)
    (hg : ∀ t ∈ l, ∀ x, f t = .ok x → g x = t) :
    v.map g = l := by
  induction l generalizing v with
  | nil =>
    simp only [collectResults, Except.ok.injEq] at h
    simp [← h]
  | cons t rest ih =>
    simp only [collectResults] at h
    cases hf : f t with
    | error e => rw [hf] at h; simp at h
    | ok x =>
      rw [hf] at h
      cases hc : collectResults f rest with
      | error e => rw [hc] at h; simp at h
      | ok vs =>
        rw [hc] at h
        simp only [Except.ok.injEq] at h
        subst h
        simp only [List.map_cons]
        rw [hg t (by simp) x hf,
          ih vs hc (fun u hu => hg u (List.mem_cons_of_mem _ hu))]

theorem collectResults_error_at (f : List Char → Except (List Char) α)
    (good : List (List Char)) (t : List Char) (rest : List (List Char))
    (e : List Char) (hgood : ∀ g ∈ good, ∃ x, f g = .ok x)
    (ht : f t = .error e) :
    collectResults f (good ++ t :: rest) = .error e := by
  induction good with
  | nil => simp [collectResults, ht]
  | cons a as ih =>
    obtain ⟨x, hx⟩ := hgood a (by simp)
    have hrest := ih (fun y hy => hgood y (List.mem_cons_of_mem _ hy))
    simp [collectResults, hx, hrest]

theorem collectResults_ok_mem (f : List Char → Except (List Char) α)
    (l : List (List Char)) (v : List α) (h : collectResults f l = .ok v) :
    ∀ y ∈ v, ∃ t ∈ l, f t = .ok y := by
  induction l generalizing v with
  | nil =>
    simp only [collectResults, Except.ok.injEq] at h
    simp [← h]
  | cons t rest ih =>
    simp only [collectResults] at h
    cases hf : f t with
    | error e => rw [hf] at h; simp at h
    | ok x =>
      rw [hf] at h
      cases hc : collectResults f rest with
      | error e => rw [hc] at h; simp at h
      | ok vs =>
        rw [hc] at h
        simp only [Except.ok.injEq] at h
        subst h
        intro y hy
        rcases List.mem_cons.mp hy with rfl | hmem
        · exact ⟨t, by simp, hf⟩
        · obtain ⟨u, hu, hfu⟩ := ih vs hc y hmem
          exact ⟨u, List.mem_cons_of_mem _ hu, hfu⟩

/-- The element-level side conditions an optional-pair codec needs for
its round trip: the first component renders separator-free and both
components parse back to themselves.  Trivial for `none`. -/
def pairOk (cw : NumCodec W) (ch : NumCodec H) (sep : Char) :
    Option (W × H) → Prop
  | none => True
  | some p => sep ∉ cw.ts p.1 ∧ cw.fs (cw.ts p.1) = .ok p.1
      ∧ ch.fs (ch.ts p.2) = .ok p.2

instance (cw : NumCodec W) (ch : NumCodec H) [DecidableEq W] [DecidableEq H]
    (sep : Char) (o : Option (W × H)) : Decidable (pairOk cw ch sep o) := by
  cases o with
  | none => exact isTrue trivial
  | some p =>
    unfold pairOk
    infer_instance

theorem vec_num_encode_ne_nil (c : NumCodec α) (l : List α) (hl : l ≠ [])
    (hts : ∀ x ∈ l, c.ts x ≠ []) : vec_num.encode c l ≠ [] := by
  intro hnil
  rcases (joinSep_eq_nil_iff _ _).mp hnil with h1 | h1
  · exact hl (List.map_eq_nil_iff.mp h1)
  · cases l with
    | nil => exact hl rfl
    | cons x xs =>
      simp only [List.map_cons, List.cons.injEq] at h1
      exact hts x (by simp) h1.1

theorem vec_num_roundtrip (c : NumCodec α) (l : List α)
    (h : ∀ x ∈ l, c.fs (c.ts x) = .ok x ∧ c.ts x ≠ [] ∧ '_' ∉ c.ts x) :
    vec_num.deserialize c (vec_num.encode c l) = .ok l := by
  cases l with
  | nil => rfl
  | cons x xs =>
    have hne : vec_num.encode c (x :: xs) ≠ [] :=
      vec_num_encode_ne_nil c _ (by simp) (fun y hy => (h y hy).2.1)
    unfold vec_num.deserialize
    rw [if_neg hne]
    unfold vec_num.encode
    rw [splitOnChar_joinSep '_' _ (by simp) (fun p hp => by
      obtain ⟨y, hy, rfl⟩ := List.mem_map.mp hp
      exact (h y hy).2.2)]
    exact collectResults_of_ok c.fs c.ts _ (fun y hy => (h y hy).1)

theorem vec_vec_num_roundtrip (c : NumCodec α) (m : List (List α))
    (h : ∀ r ∈ m, r ≠ [] ∧ ∀ x ∈ r,
      c.fs (c.ts x) = .ok x ∧ c.ts x ≠ [] ∧ '_' ∉ c.ts x ∧ '|' ∉ c.ts x) :
    vec_vec_num.deserialize c (vec_vec_num.encode c m) = .ok m := by
  cases m with
  | nil => rfl
  | cons r rs =>
    have hrow : ∀ q ∈ (r :: rs),
        joinSep '_' (q.map c.ts) ≠ [] ∧ '|' ∉ joinSep '_' (q.map c.ts) := by
      intro q hq
      obtain ⟨hqne, hqel⟩ := h q hq
      refine ⟨?_, ?_⟩
      · intro hnil
        rcases (joinSep_eq_nil_iff _ _).mp hnil with h1 | h1
        · exact hqne (List.map_eq_nil_iff.mp h1)
        · cases q with
          | nil => exact hqne rfl
          | cons x xs =>
            simp only [List.map_cons, List.cons.injEq] at h1
            exact (hqel x (by simp)).2.1 h1.1
      · exact not_mem_joinSep '_' '|' _ (by decide) (fun p hp => by
          obtain ⟨y, hy, rfl⟩ := List.mem_map.mp hp
          exact (hqel y hy).2.2.2)
    have henc : vec_vec_num.encode c (r :: rs) ≠ [] := by
      intro hnil
      rcases (joinSep_eq_nil_iff _ _).mp hnil with h1 | h1
      · simp at h1
      · simp only [List.map_cons, List.cons.injEq] at h1
        exact (hrow r (by simp)).1 h1.1
    unfold vec_vec_num.deserialize
    rw [if_neg henc]
    unfold vec_vec_num.encode
    rw [splitOnChar_joinSep '|' _ (by simp) (fun p hp => by
      obtain ⟨q, hq, rfl⟩ := List.mem_map.mp hp
      exact (hrow q hq).2)]
    refine collectResults_of_ok _ (fun (q : List α) => joinSep '_' (List.map c.ts q)) _ ?_
    intro q hq
    rw [splitOnChar_joinSep '_' (List.map c.ts q)
      (by
        intro hh
        exact (h q hq).1 (List.map_eq_nil_iff.mp hh))
      (fun p hp => by
        obtain ⟨y, hy, rfl⟩ := List.mem_map.mp hp
        exact ((h q hq).2 y hy).2.2.1)]
    exact collectResults_of_ok c.fs c.ts _ (fun y hy => ((h q hq).2 y hy).1)

theorem maybe_image_size_roundtrip (cw : NumCodec W) (ch : NumCodec H)
    (o : Option (W × H)) (h : pairOk cw ch 'x' o) :
    maybe_image_size.deserialize cw ch (maybe_image_size.encode cw ch o) = .ok o := by
  cases o with
  | none => rfl
  | some p =>
    obtain ⟨hx, hw, hh⟩ := h
    have hne : maybe_image_size.encode cw ch (some p) ≠ [] := by
      simp [maybe_image_size.encode]
    unfold maybe_image_size.deserialize
    rw [if_neg hne]
    simp only [maybe_image_size.encode]
    rw [splitOnceChar_append 'x' _ _ hx]
    simp [hw, hh]

theorem maybe_lat_lon_roundtrip (cp : NumCodec T) (o : Option (T × T))
    (h : pairOk cp cp ';' o) :
    maybe_lat_lon.deserialize cp (maybe_lat_lon.encode cp o) = .ok o := by
  cases o with
  | none => rfl
  | some p =>
    obtain ⟨hx, ha, hb⟩ := h
    have hne : maybe_lat_lon.encode cp (some p) ≠ [] := by
      simp [maybe_lat_lon.encode]
    unfold maybe_lat_lon.deserialize
    rw [if_neg hne]
    simp only [maybe_lat_lon.encode]
    rw [splitOnceChar_append ';' _ _ hx]
    simp [ha, hb]

/-- C1 counterexample: the matrix `[[]]` — one row, that row empty — is a
value of the matrix codec at a supported numeric element type, yet
`deserialize (serialize [[]])` returns `[]`, not `[[]]`: the claimed
round-trip `decode (encode v) = v` fails for `vec_vec_num`. -/
theorem matrix_empty_row_breaks_roundtrip :
    vec_vec_num.deserialize intCodec (vec_vec_num.encode intCodec [[]]) = .ok []
    ∧ vec_vec_num.deserialize intCodec (vec_vec_num.encode intCodec [[]])
        ≠ .ok ([[]] : List (List Int)) := by decide

/-- C1 (amended): for every codec, decoding the string produced by
serializing `v` returns `v`, for every value `v` whose elements render
to non-empty, separator-free strings that parse back to themselves —
except that for the matrix codec `v` must additionally have no empty
rows (`[[]]` and friends encode to strings that do not decode back). -/
theorem decode_encode_roundtrip
    (c : NumCodec α) (cw : NumCodec W) (ch : NumCodec H) (cp : NumCodec T)
    (l : List α) (m : List (List α)) (wh : Option (W × H)) (geo : Option (T × T))
    (hl : ∀ x ∈ l, c.fs (c.ts x) = .ok x ∧ c.ts x ≠ [] ∧ '_' ∉ c.ts x)
    (hm : ∀ r ∈ m, r ≠ [] ∧ ∀ x ∈ r,
      c.fs (c.ts x) = .ok x ∧ c.ts x ≠ [] ∧ '_' ∉ c.ts x ∧ '|' ∉ c.ts x)
    (hwh : pairOk cw ch 'x' wh) (hgeo : pairOk cp cp ';' geo) :
    vec_num.deserialize c (vec_num.encode c l) = .ok l
    ∧ vec_vec_num.deserialize c (vec_vec_num.encode c m) = .ok m
    ∧ maybe_image_size.deserialize cw ch (maybe_image_size.encode cw ch wh) = .ok wh
    ∧ maybe_lat_lon.deserialize cp (maybe_lat_lon.encode cp geo) = .ok geo :=
  ⟨vec_num_roundtrip c l hl, vec_vec_num_roundtrip c m hm,
   maybe_image_size_roundtrip cw ch wh hwh, maybe_lat_lon_roundtrip cp geo hgeo⟩

/-- C1 witness: the amended round-trip at the README's example values. -/
theorem decode_encode_roundtrip_witness :
    vec_num.deserialize intCodec (vec_num.encode intCodec [-1, 1]) = .ok [-1, 1]
    ∧ vec_vec_num.deserialize intCodec
        (vec_vec_num.encode intCodec [[-1, 1], [1, -1]]) = .ok [[-1, 1], [1, -1]]
    ∧ maybe_image_size.deserialize intCodec intCodec
        (maybe_image_size.encode intCodec intCodec (some (16, 1024))) = .ok (some (16, 1024))
    ∧ maybe_lat_lon.deserialize intCodec
        (maybe_lat_lon.encode intCodec (some (84, -135))) = .ok (some (84, -135)) :=
  decode_encode_roundtrip intCodec intCodec intCodec intCodec
    [-1, 1] [[-1, 1], [1, -1]] (some (16, 1024)) (some (84, -135))
    (by decide) (by decide) (by decide) (by decide)

/-- C2: every codec serializes the empty list, the empty matrix and
`None` to exactly the empty string, and deserializes the empty string to
the empty list, the empty matrix and `None`; in the code the empty
string is a guard checked before any splitting. -/
theorem empty_canonical (c : NumCodec α) (cw : NumCodec W) (ch : NumCodec H)
    (cp : NumCodec T) :
    vec_num.encode c [] = []
    ∧ vec_vec_num.encode c [] = []
    ∧ maybe_image_size.encode cw ch none = []
    ∧ maybe_lat_lon.encode cp none = []
    ∧ vec_num.deserialize c [] = .ok []
    ∧ vec_vec_num.deserialize c [] = .ok []
    ∧ maybe_image_size.deserialize cw ch [] = .ok none
    ∧ maybe_lat_lon.deserialize cp [] = .ok none :=
  ⟨rfl, rfl, rfl, rfl, rfl, rfl, rfl, rfl⟩

/-- A token in canonical form for a codec: if it parses at all, rendering
the parsed value reproduces the token exactly. -/
def canonicalToken (c : NumCodec α) (t : List Char) : Bool :=
  match c.fs t with
  | .ok x => decide (c.ts x = t)
  | .error _ => true

theorem canonicalToken_spec (c : NumCodec α) (t : List Char) (x : α)
    (hc : canonicalToken c t = true) (hx : c.fs t = .ok x) : c.ts x = t := by
  unfold canonicalToken at hc
  rw [hx] at hc
  exact of_decide_eq_true hc

/-- Both parts produced by `split_once` are canonical tokens (trivially
true when the separator is absent). -/
def onceCanonical (cw : NumCodec W) (ch : NumCodec H) (sep : Char)
    (s : List Char) : Bool :=
  match splitOnceChar sep s with
  | some (a, b) => canonicalToken cw a && canonicalToken ch b
  | none => true

/-- C3 counterexample: the string `01` is accepted by the list decoder at
a Rust integer type — `parse` takes leading zeros — but re-serializing
the decoded value `[1]` yields the canonical `1`, not `01`: the claimed
identity `encode (decode s) = s` fails on this valid input. -/
theorem leading_zero_breaks_reencoding :
    vec_num.deserialize intCodec ("01".data) = .ok [1]
    ∧ vec_num.encode intCodec [1] ≠ "01".data := by decide

/-- C3 (amended): re-serializing a decoded value reproduces the input
string exactly when every numeric token of the input is in canonical
form (renders back to itself); decoders also accept non-canonical
tokens such as `01` or `+1`, and those re-encode to their canonical
form instead of the original string. -/
theorem encode_decode_of_canonical
    (c : NumCodec α) (cw : NumCodec W) (ch : NumCodec H) (cp : NumCodec T)
    (s₁ s₂ s₃ s₄ : List Char) :
    (∀ v, vec_num.deserialize c s₁ = .ok v →
      (∀ t ∈ splitOnChar '_' s₁, canonicalToken c t = true) →
      vec_num.encode c v = s₁)
    ∧ (∀ m, vec_vec_num.deserialize c s₂ = .ok m →
      (∀ line ∈ splitOnChar '|' s₂, ∀ t ∈ splitOnChar '_' line,
        canonicalToken c t = true) →
      vec_vec_num.encode c m = s₂)
    ∧ (∀ o, maybe_image_size.deserialize cw ch s₃ = .ok o →
      onceCanonical cw ch 'x' s₃ = true →
      maybe_image_size.encode cw ch o = s₃)
    ∧ (∀ o, maybe_lat_lon.deserialize cp s₄ = .ok o →
      onceCanonical cp cp ';' s₄ = true →
      maybe_lat_lon.encode cp o = s₄) := by
  refine ⟨?_, ?_, ?_, ?_⟩
  · intro v hv hcan
    by_cases hs : s₁ = []
    · subst hs
      simp [vec_num.deserialize] at hv
      subst hv
      rfl
    · unfold vec_num.deserialize at hv
      rw [if_neg hs] at hv
      have hmap := collectResults_map c.fs c.ts _ v hv
        (fun t ht x hx => canonicalToken_spec c t x (hcan t ht) hx)
      unfold vec_num.encode
      rw [hmap, joinSep_splitOnChar]
  · intro m hv hcan
    by_cases hs : s₂ = []
    · subst hs
      simp [vec_vec_num.deserialize] at hv
      subst hv
      rfl
    · unfold vec_vec_num.deserialize at hv
      rw [if_neg hs] at hv
      have hmap := collectResults_map
        (fun line => collectResults c.fs (splitOnChar '_' line))
        (fun (row : List α) => joinSep '_' (List.map c.ts row)) _ m hv ?_
      · unfold vec_vec_num.encode
        rw [hmap, joinSep_splitOnChar]
      · intro line hline row hrow
        have hin := collectResults_map c.fs c.ts _ row hrow
          (fun t ht x hx => canonicalToken_spec c t x (hcan line hline t ht) hx)
        show joinSep '_' (List.map c.ts row) = line
        rw [hin, joinSep_splitOnChar]
  · intro o hv hcan
    by_cases hs : s₃ = []
    · subst hs
      simp [maybe_image_size.deserialize] at hv
      subst hv
      rfl
    · unfold maybe_image_size.deserialize at hv
      rw [if_neg hs] at hv
      unfold onceCanonical at hcan
      cases hsp : splitOnceChar 'x' s₃ with
      | none => rw [hsp] at hv; simp at hv
      | some ab =>
        obtain ⟨a, b⟩ := ab
        rw [hsp] at hv hcan
        dsimp only at hv
        rw [Bool.and_eq_true] at hcan
        cases hfa : cw.fs a with
        | error e => rw [hfa] at hv; simp at hv
        | ok w =>
          rw [hfa] at hv
          cases hfb : ch.fs b with
          | error e => rw [hfb] at hv; simp at hv
          | ok h =>
            rw [hfb] at hv
            simp only [Except.ok.injEq] at hv
            subst hv
            obtain ⟨hsab, _⟩ := splitOnceChar_some 'x' s₃ a b hsp
            simp only [maybe_image_size.encode]
            rw [canonicalToken_spec cw a w hcan.1 hfa,
              canonicalToken_spec ch b h hcan.2 hfb, hsab]
  · intro o hv hcan
    by_cases hs : s₄ = []
    · subst hs
      simp [maybe_lat_lon.deserialize] at hv
      subst hv
      rfl
    · unfold maybe_lat_lon.deserialize at hv
      rw [if_neg hs] at hv
      unfold onceCanonical at hcan
      cases hsp : splitOnceChar ';' s₄ with
      | none => rw [hsp] at hv; simp at hv
      | some ab =>
        obtain ⟨a, b⟩ := ab
        rw [hsp] at hv hcan
        dsimp only at hv
        rw [Bool.and_eq_true] at hcan
        cases hfa : cp.fs a with
        | error e => rw [hfa] at hv; simp at hv
        | ok w =>
          rw [hfa] at hv
          cases hfb : cp.fs b with
          | error e => rw [hfb] at hv; simp at hv
          | ok h =>
            rw [hfb] at hv
            simp only [Except.ok.injEq] at hv
            subst hv
            obtain ⟨hsab, _⟩ := splitOnceChar_some ';' s₄ a b hsp
            simp only [maybe_lat_lon.encode]
            rw [canonicalToken_spec cp a w hcan.1 hfa,
              canonicalToken_spec cp b h hcan.2 hfb, hsab]

/-- C3 witness: the amended statement at canonical inputs. -/
theorem encode_decode_of_canonical_witness :
    vec_num.encode intCodec [-1, 1] = "-1_1".data
    ∧ vec_vec_num.encode intCodec [[0], [-1, 1]] = "0|-1_1".data
    ∧ maybe_image_size.encode intCodec intCodec (some (16, 1024)) = "16x1024".data
    ∧ maybe_lat_lon.encode intCodec (some (84, -135)) = "84;-135".data := by
  obtain ⟨h1, h2, h3, h4⟩ := encode_decode_of_canonical intCodec intCodec intCodec
    intCodec ("-1_1".data) ("0|-1_1".data) ("16x1024".data) ("84;-135".data)
  exact ⟨h1 [-1, 1] (by decide) (by decide),
    h2 [[0], [-1, 1]] (by decide) (by decide),
    h3 (some (16, 1024)) (by decide) (by decide),
    h4 (some (84, -135)) (by decide) (by decide)⟩

/-- C4 counterexample: the matrix `[[]]` has at least one row (it is not
the empty matrix), yet it serializes to the empty string — the empty
string is not the unique encoding of empty/absent values. -/
theorem nonempty_matrix_encodes_empty :
    vec_vec_num.encode intCodec [[]] = [] ∧ ([[]] : List (List Int)) ≠ [] := by
  decide

/-- C4 (amended): every non-empty sequence whose elements render to
non-empty strings, every `Some` pair, and every matrix with at least one
row — other than the single-empty-row matrix `[[]]`, which serializes to
the empty string — serializes to a non-empty string. -/
theorem nonempty_value_encodes_nonempty
    (c : NumCodec α) (cw : NumCodec W) (ch : NumCodec H) (cp : NumCodec T)
    (l : List α) (m : List (List α)) (pw : W × H) (pq : T × T)
    (hl : l ≠ []) (hlts : ∀ x ∈ l, c.ts x ≠ [])
    (hm : m ≠ []) (hm1 : m ≠ [[]]) (hmts : ∀ r ∈ m, ∀ x ∈ r, c.ts x ≠ []) :
    vec_num.encode c l ≠ []
    ∧ vec_vec_num.encode c m ≠ []
    ∧ maybe_image_size.encode cw ch (some pw) ≠ []
    ∧ maybe_lat_lon.encode cp (some pq) ≠ [] := by
  refine ⟨vec_num_encode_ne_nil c l hl hlts, ?_, ?_, ?_⟩
  · intro hnil
    rcases (joinSep_eq_nil_iff _ _).mp hnil with h1 | h1
    · exact hm (List.map_eq_nil_iff.mp h1)
    · cases m with
      | nil => exact hm rfl
      | cons r rs =>
        simp only [List.map_cons, List.cons.injEq] at h1
        obtain ⟨hr, hrs⟩ := h1
        have hrs' : rs = [] := List.map_eq_nil_iff.mp hrs
        subst hrs'
        rcases (joinSep_eq_nil_iff _ _).mp hr with h2 | h2
        · have : r = [] := List.map_eq_nil_iff.mp h2
          subst this
          exact hm1 rfl
        · cases r with
          | nil => exact hm1 rfl
          | cons x xs =>
            simp only [List.map_cons, List.cons.injEq] at h2
            exact hmts (x :: xs) (by simp) x (by simp) h2.1
  · simp [maybe_image_size.encode]
  · simp [maybe_lat_lon.encode]

/-- C4 witness: the amended statement at small concrete values. -/
theorem nonempty_value_encodes_nonempty_witness :
    vec_num.encode intCodec [1] ≠ []
    ∧ vec_vec_num.encode intCodec [[1]] ≠ []
    ∧ maybe_image_size.encode intCodec intCodec (some (1, 2)) ≠ []
    ∧ maybe_lat_lon.encode intCodec (some (1, 2)) ≠ [] :=
  nonempty_value_encodes_nonempty intCodec intCodec intCodec intCodec
    [1] [[1]] (1, 2) (1, 2)
    (by decide) (by decide) (by decide) (by decide) (by decide)

/-- C5: whenever any of the four decoders accepts a non-empty string, the
result is non-empty — a list with at least one element, a matrix with at
least one row, or a `Some` pair; no non-empty string decodes to the
empty/absent value. -/
theorem decode_nonempty
    (c : NumCodec α) (cw : NumCodec W) (ch : NumCodec H) (cp : NumCodec T)
    (s₁ s₂ s₃ s₄ : List Char)
    (h1 : s₁ ≠ []) (h2 : s₂ ≠ []) (h3 : s₃ ≠ []) (h4 : s₄ ≠ []) :
    (∀ v, vec_num.deserialize c s₁ = .ok v → v ≠ [])
    ∧ (∀ m, vec_vec_num.deserialize c s₂ = .ok m → m ≠ [])
    ∧ (∀ o, maybe_image_size.deserialize cw ch s₃ = .ok o → o ≠ none)
    ∧ (∀ o, maybe_lat_lon.deserialize cp s₄ = .ok o → o ≠ none) := by
  refine ⟨?_, ?_, ?_, ?_⟩
  · intro v hv
    unfold vec_num.deserialize at hv
    rw [if_neg h1] at hv
    have hlen := collectResults_ok_length _ _ _ hv
    intro hnil
    subst hnil
    obtain ⟨p, ps, hps⟩ := splitOnChar_cons_head '_' s₁
    rw [hps] at hlen
    simp at hlen
  · intro m hm
    unfold vec_vec_num.deserialize at hm
    rw [if_neg h2] at hm
    have hlen := collectResults_ok_length _ _ _ hm
    intro hnil
    subst hnil
    obtain ⟨p, ps, hps⟩ := splitOnChar_cons_head '|' s₂
    rw [hps] at hlen
    simp at hlen
  · intro o ho
    unfold maybe_image_size.deserialize at ho
    rw [if_neg h3] at ho
    cases hsp : splitOnceChar 'x' s₃ with
    | none => rw [hsp] at ho; simp at ho
    | some ab =>
      obtain ⟨a, b⟩ := ab
      rw [hsp] at ho
      dsimp only at ho
      cases hfa : cw.fs a with
      | error e => rw [hfa] at ho; simp at ho
      | ok w =>
        rw [hfa] at ho
        cases hfb : ch.fs b with
        | error e => rw [hfb] at ho; simp at ho
        | ok h =>
          rw [hfb] at ho
          simp only [Except.ok.injEq] at ho
          subst ho
          simp
  · intro o ho
    unfold maybe_lat_lon.deserialize at ho
    rw [if_neg h4] at ho
    cases hsp : splitOnceChar ';' s₄ with
    | none => rw [hsp] at ho; simp at ho
    | some ab =>
      obtain ⟨a, b⟩ := ab
      rw [hsp] at ho
      dsimp only at ho
      cases hfa : cp.fs a with
      | error e => rw [hfa] at ho; simp at ho
      | ok w =>
        rw [hfa] at ho
        cases hfb : cp.fs b with
        | error e => rw [hfb] at ho; simp at ho
        | ok h =>
          rw [hfb] at ho
          simp only [Except.ok.injEq] at ho
          subst ho
          simp
/-- C5 witness: the property at concrete accepted strings. -/
theorem decode_nonempty_witness :
    ([1] : List Int) ≠ [] ∧ ([[1]] : List (List Int)) ≠ []
    ∧ some ((1 : Int), (2 : Int)) ≠ none ∧ some ((3 : Int), (4 : Int)) ≠ none := by
  obtain ⟨h1, h2, h3, h4⟩ := decode_nonempty intCodec intCodec intCodec intCodec
    ("1".data) ("1".data) ("1x2".data) ("3;4".data)
    (by decide) (by decide) (by decide) (by decide)
  exact ⟨h1 [1] (by decide), h2 [[1]] (by decide),
    h3 (some (1, 2)) (by decide), h4 (some (3, 4)) (by decide)⟩

/-- C6: the dimension-pair decoder splits a non-empty string at the first
`x` — decoding `a ++ x :: b` with `x ∉ a` parses `a` as the width and
`b` as the height — so `1x2x3` splits into width part `1` and height
part `2x3` (whose parse then fails at an integer type), and a non-empty
string with no `x` fails with the message `bad image size format`. -/
theorem image_size_first_split (cw : NumCodec W) (ch : NumCodec H) :
    (∀ a b : List Char, 'x' ∉ a →
      maybe_image_size.deserialize cw ch (a ++ 'x' :: b) =
        (match cw.fs a with
         | .error e => .error e
         | .ok w =>
           match ch.fs b with
           | .error e => .error e
           | .ok h => .ok (some (w, h))))
    ∧ (∀ s, s ≠ [] → 'x' ∉ s →
      maybe_image_size.deserialize cw ch s = .error ("bad image size format".data))
    ∧ splitOnceChar 'x' ("1x2x3".data) = some ("1".data, "2x3".data)
    ∧ maybe_image_size.deserialize intCodec intCodec ("1x2x3".data)
        = .error ("invalid digit found in string".data) := by
  refine ⟨?_, ?_, by decide, by decide⟩
  · intro a b ha
    have hne : a ++ 'x' :: b ≠ [] := by simp
    unfold maybe_image_size.deserialize
    rw [if_neg hne, splitOnceChar_append 'x' a b ha]
  · intro s hs hx
    unfold maybe_image_size.deserialize
    rw [if_neg hs, (splitOnceChar_eq_none 'x' s).mpr hx]

/-- C6 witness: the first-split behaviour and the missing-separator error
at concrete strings. -/
theorem image_size_first_split_witness :
    maybe_image_size.deserialize intCodec intCodec ("1x2".data) = .ok (some (1, 2))
    ∧ maybe_image_size.deserialize intCodec intCodec ("12".data)
        = .error ("bad image size format".data) := by
  refine ⟨?_, (image_size_first_split intCodec intCodec).2.1 ("12".data)
    (by decide) (by decide)⟩
  have h := (image_size_first_split intCodec intCodec).1 ("1".data) ("2".data)
    (by decide)
  have he : ("1".data ++ 'x' :: "2".data) = "1x2".data := by decide
  rw [he] at h
  rw [h]
  decide

/-- C7 counterexample: decoding the single tokens `z` and `q` yields the
very same error — the underlying parser's message alone — and that error
does not contain the offending token, so the parse error does not carry
the offending token as the claim states. -/
theorem parse_error_lacks_token :
    vec_num.deserialize intCodec ("z".data)
        = .error ("invalid digit found in string".data)
    ∧ vec_num.deserialize intCodec ("q".data)
        = .error ("invalid digit found in string".data)
    ∧ 'z' ∉ ("invalid digit found in string".data) := by decide

/-- C7 (amended): when a token of a list or matrix string fails to parse,
deserialization aborts at the first failing token and returns exactly
the underlying parser's failure description (`Error::custom` of the
`FromStr` error) — no partial sequence or matrix, and no token attached
by the codec. -/
theorem first_token_failure_aborts (c : NumCodec α) :
    (∀ s good t rest e, s ≠ [] → splitOnChar '_' s = good ++ t :: rest →
      (∀ g ∈ good, ∃ x, c.fs g = .ok x) → c.fs t = .error e →
      vec_num.deserialize c s = .error e)
    ∧ (∀ line good t rest e, splitOnChar '_' line = good ++ t :: rest →
      (∀ g ∈ good, ∃ x, c.fs g = .ok x) → c.fs t = .error e →
      collectResults c.fs (splitOnChar '_' line) = .error e)
    ∧ (∀ s goodLines line rest e, s ≠ [] →
      splitOnChar '|' s = goodLines ++ line :: rest →
      (∀ g ∈ goodLines, ∃ row, collectResults c.fs (splitOnChar '_' g) = .ok row) →
      collectResults c.fs (splitOnChar '_' line) = .error e →
      vec_vec_num.deserialize c s = .error e) := by
  refine ⟨?_, ?_, ?_⟩
  · intro s good t rest e hs hsplit hgood ht
    unfold vec_num.deserialize
    rw [if_neg hs, hsplit]
    exact collectResults_error_at c.fs good t rest e hgood ht
  · intro line good t rest e hsplit hgood ht
    rw [hsplit]
    exact collectResults_error_at c.fs good t rest e hgood ht
  · intro s goodLines line rest e hs hsplit hgood hline
    unfold vec_vec_num.deserialize
    rw [if_neg hs, hsplit]
    exact collectResults_error_at _ goodLines line rest e hgood hline

/-- C7 witness: a failing middle token aborts a list decode and a failing
row aborts a matrix decode, with the underlying parser's message. -/
theorem first_token_failure_aborts_witness :
    vec_num.deserialize intCodec ("1_z_2".data)
        = .error ("invalid digit found in string".data)
    ∧ vec_vec_num.deserialize intCodec ("1|z_2".data)
        = .error ("invalid digit found in string".data) := by
  refine ⟨?_, ?_⟩
  · exact (first_token_failure_aborts intCodec).1 ("1_z_2".data)
      ["1".data] ("z".data) ["2".data] ("invalid digit found in string".data)
      (by decide) (by decide)
      (by
        intro g hg
        rw [List.mem_singleton] at hg
        subst hg
        exact ⟨1, by decide⟩)
      (by decide)
  · exact (first_token_failure_aborts intCodec).2.2 ("1|z_2".data)
      ["1".data] ("z_2".data) [] ("invalid digit found in string".data)
      (by decide) (by decide)
      (by
        intro g hg
        rw [List.mem_singleton] at hg
        subst hg
        exact ⟨[1], by decide⟩)
      (by decide)

/-- C8: the coordinate-pair decoder splits a non-empty string at the
first `;` — decoding `a ++ ; :: b` with `; ∉ a` parses `a` and `b`
independently — and a non-empty string with no `;` fails with the
message `bad image size format`, the very message the dimension-pair
decoder uses for a missing `x`. -/
theorem lat_lon_first_split (cp : NumCodec T) (cw : NumCodec W) (ch : NumCodec H) :
    (∀ a b : List Char, ';' ∉ a →
      maybe_lat_lon.deserialize cp (a ++ ';' :: b) =
        (match cp.fs a with
         | .error e => .error e
         | .ok la =>
           match cp.fs b with
           | .error e => .error e
           | .ok lo => .ok (some (la, lo))))
    ∧ (∀ s, s ≠ [] → ';' ∉ s →
      maybe_lat_lon.deserialize cp s = .error ("bad image size format".data))
    ∧ (∀ s, s ≠ [] → 'x' ∉ s →
      maybe_image_size.deserialize cw ch s = .error ("bad image size format".data)) := by
  refine ⟨?_, ?_, ?_⟩
  · intro a b ha
    have hne : a ++ ';' :: b ≠ [] := by simp
    unfold maybe_lat_lon.deserialize
    rw [if_neg hne, splitOnceChar_append ';' a b ha]
  · intro s hs hx
    unfold maybe_lat_lon.deserialize
    rw [if_neg hs, (splitOnceChar_eq_none ';' s).mpr hx]
  · intro s hs hx
    unfold maybe_image_size.deserialize
    rw [if_neg hs, (splitOnceChar_eq_none 'x' s).mpr hx]

/-- C8 witness: first-`;` splitting and the shared error message at
concrete strings. -/
theorem lat_lon_first_split_witness :
    maybe_lat_lon.deserialize intCodec ("8;-1".data) = .ok (some (8, -1))
    ∧ maybe_lat_lon.deserialize intCodec ("81".data)
        = .error ("bad image size format".data)
    ∧ maybe_image_size.deserialize intCodec intCodec ("81".data)
        = .error ("bad image size format".data) := by
  refine ⟨?_, (lat_lon_first_split intCodec intCodec intCodec).2.1 ("81".data)
    (by decide) (by decide),
    (lat_lon_first_split intCodec intCodec intCodec).2.2 ("81".data)
    (by decide) (by decide)⟩
  have h := (lat_lon_first_split intCodec intCodec intCodec).1 ("8".data)
    ("-1".data) (by decide)
  have he : ("8".data ++ ';' :: "-1".data) = "8;-1".data := by decide
  rw [he] at h
  rw [h]
  decide

/-- C9: a serialize operation is exactly the caller-supplied field writer
applied to the encoded string — it can produce no error of its own, and
a writer failure is returned to the caller unchanged. -/
theorem serialize_error_pass_through
    (c : NumCodec α) (cw : NumCodec W) (ch : NumCodec H) (cp : NumCodec T)
    (l : List α) (m : List (List α)) (wh : Option (W × H)) (geo : Option (T × T))
    (wr : List Char → Except ε β) :
    vec_num.serialize c l wr = wr (vec_num.encode c l)
    ∧ vec_vec_num.serialize c m wr = wr (vec_vec_num.encode c m)
    ∧ maybe_image_size.serialize cw ch wh wr = wr (maybe_image_size.encode cw ch wh)
    ∧ maybe_lat_lon.serialize cp geo wr = wr (maybe_lat_lon.encode cp geo)
    ∧ (∀ e, vec_num.serialize c l wr = .error e →
        wr (vec_num.encode c l) = .error e)
    ∧ (∀ e, vec_vec_num.serialize c m wr = .error e →
        wr (vec_vec_num.encode c m) = .error e)
    ∧ (∀ e, maybe_image_size.serialize cw ch wh wr = .error e →
        wr (maybe_image_size.encode cw ch wh) = .error e)
    ∧ (∀ e, maybe_lat_lon.serialize cp geo wr = .error e →
        wr (maybe_lat_lon.encode cp geo) = .error e) := by
  have h3 : maybe_image_size.serialize cw ch wh wr
      = wr (maybe_image_size.encode cw ch wh) := by
    cases wh <;> rfl
  have h4 : maybe_lat_lon.serialize cp geo wr
      = wr (maybe_lat_lon.encode cp geo) := by
    cases geo <;> rfl
  refine ⟨rfl, rfl, h3, h4, fun e he => he, fun e he => he, ?_, ?_⟩
  · intro e he
    rw [← h3]
    exact he
  · intro e he
    rw [← h4]
    exact he

/-- C9 witness: a failing writer's error comes back unchanged, and an
always-succeeding writer receives exactly the encoded string. -/
theorem serialize_error_pass_through_witness :
    vec_num.serialize (ε := List Char) (β := Unit) intCodec [1]
        (fun _ => .error ("io error".data)) = .error ("io error".data)
    ∧ (fun (_ : List Char) => (Except.error ("io error".data) : Except (List Char) Unit))
        (vec_num.encode intCodec [1]) = .error ("io error".data) := by
  constructor
  · exact (serialize_error_pass_through intCodec intCodec intCodec intCodec
      [1] [[1]] (some (1, 2)) (some (1, 2)) (fun _ => .error ("io error".data))).1
  · exact (serialize_error_pass_through intCodec intCodec intCodec intCodec
      [1] [[1]] (some (1, 2)) (some (1, 2))
      (fun _ => .error ("io error".data))).2.2.2.2.1 ("io error".data) rfl

/-- C10: a successfully decoded matrix never contains an empty row — each
row substring is split on `_` into at least one token (the empty
substring between two `|` yields the single empty token, since splitting
the empty string gives one empty piece) — and at an integer element type
the input `1||2` fails with the empty-token parse error. -/
theorem matrix_rows_nonempty (c : NumCodec α) :
    (∀ s m, s ≠ [] → vec_vec_num.deserialize c s = .ok m → ∀ row ∈ m, row ≠ [])
    ∧ splitOnChar '_' [] = [[]]
    ∧ vec_vec_num.deserialize intCodec ("1||2".data)
        = .error ("cannot parse integer from empty string".data) := by
  refine ⟨?_, rfl, by decide⟩
  intro s m hs hm row hrow
  unfold vec_vec_num.deserialize at hm
  rw [if_neg hs] at hm
  obtain ⟨line, _, hfl⟩ := collectResults_ok_mem _ _ _ hm row hrow
  have hlen := collectResults_ok_length _ _ _ hfl
  intro hnil
  subst hnil
  obtain ⟨p, ps, hps⟩ := splitOnChar_cons_head '_' line
  rw [hps] at hlen
  simp at hlen

/-- C10 witness: a decoded row of a concrete accepted matrix string is
non-empty. -/
theorem matrix_rows_nonempty_witness : ([1] : List Int) ≠ [] :=
  (matrix_rows_nonempty intCodec).1 ("1|2".data) [[1], [2]]
    (by decide) (by decide) [1] (by decide)

